import Mathlib

/-
  Verification development for the fabric_nodes launch configuration engine
  (src/fabric_nodes/launch/fabric_nodes.launch.py).

  The Python source walks a YAML document of shape
    environments: [ { name, nodes: [ { name, root_node, terminal_node,
      qty?, publishers?: [ { name, qty?, bandwidth?, msg_size?, msg_frequency? } ],
      subscribers?: [ { name, node, qty? } ] } ] } ]
  validates it (validate_config) and expands it into launch Node descriptors
  (Config2Nodes).  We embed that document shape as Lean structures: fields the
  document declares as required are plain fields, fields the code reads with
  dict.get / `in` checks are Options.  Python dicts used as topic maps are
  embedded as association lists with Python's insert-or-overwrite semantics.
  Python's `raise` is embedded as the Except monad: a failing check short
  circuits the rest of the traversal, exactly as the exception does.
-/

namespace FabricNodes

/-- Characterization values (msg_size, bandwidth, msg_frequency) are opaque
scalars to this engine; we embed them as integers. -/
abbrev Val := Int

/-- One entry of a node's `publishers` list. -/
structure PubConfig where
  name : String
  qty : Option Int
  bandwidth : Option Val
  msg_size : Option Val
  msg_frequency : Option Val
deriving DecidableEq, Repr

/-- One entry of a node's `subscribers` list. -/
structure SubConfig where
  name : String
  node : String
  qty : Option Int
deriving DecidableEq, Repr

/-- One entry of an environment's `nodes` list.  `qty`, `publishers` and
`subscribers` are optional keys in the document; `name`, `root_node` and
`terminal_node` are required. -/
structure NodeConfig where
  name : String
  root_node : Bool
  terminal_node : Bool
  qty : Option Int
  publishers : Option (List PubConfig)
  subscribers : Option (List SubConfig)
deriving DecidableEq, Repr

/-- One entry of the document's `environments` list. -/
structure EnvConfig where
  name : String
  nodes : List NodeConfig
deriving DecidableEq, Repr

/-- The whole configuration document. -/
structure Config where
  environments : List EnvConfig
deriving DecidableEq, Repr

/-- The distinct ValueError raise sites of validate_config, carrying the names
interpolated into the Python error messages. -/
inductive VError where
  | invalidNodeQty (node : String)
  | invalidPubQty (pub node : String)
  | insufficientPubParams (pub node : String)
  | invalidSubQty (sub node : String)
  | conflictingRole (node : String)
  | rootHasSubs (node : String)
  | terminalHasPubs (node : String)
deriving DecidableEq, Repr

/-- Embeds `sum(parameter in publisher for parameter in ['bandwidth',
'msg_size', 'msg_frequency'])`. -/
def paramCount (p : PubConfig) : Nat :=
  (if p.bandwidth.isSome then 1 else 0) + (if p.msg_size.isSome then 1 else 0) +
    (if p.msg_frequency.isSome then 1 else 0)

/-- Embeds the per-publisher checks of validate_config: quantity rule then the
two-of-three characterization-parameter rule. -/
def validatePub (nodeName : String) (p : PubConfig) : Except VError Unit :=
  (if p.qty.getD 1 < 1 then throw (.invalidPubQty p.name nodeName) else pure ()) >>= fun _ =>
    if paramCount p < 2 then throw (.insufficientPubParams p.name nodeName) else pure ()

/-- Embeds the `for publisher in node_publishers` loop of validate_config. -/
def validatePubs (nodeName : String) : List PubConfig → Except VError Unit
  | [] => .ok ()
  | p :: rest => validatePub nodeName p >>= fun _ => validatePubs nodeName rest

/-- Embeds the per-subscriber quantity check of validate_config. -/
def validateSub (nodeName : String) (s : SubConfig) : Except VError Unit :=
  if s.qty.getD 1 < 1 then throw (.invalidSubQty s.name nodeName) else pure ()

/-- Embeds the `for subscriber in node_subscribers` loop of validate_config. -/
def validateSubs (nodeName : String) : List SubConfig → Except VError Unit
  | [] => .ok ()
  | s :: rest => validateSub nodeName s >>= fun _ => validateSubs nodeName rest

/-- Embeds the body of validate_config's `for node_config in
environment['nodes']` loop: node quantity, publishers, subscribers, then the
root/terminal role rules.  Note the role rules test key presence
(`'subscribers' in node_config`), embedded as `Option.isSome`. -/
def validateNode (nc : NodeConfig) : Except VError Unit :=
  (if nc.qty.getD 1 < 1 then throw (.invalidNodeQty nc.name) else pure ()) >>= fun _ =>
    validatePubs nc.name (nc.publishers.getD []) >>= fun _ =>
      validateSubs nc.name (nc.subscribers.getD []) >>= fun _ =>
        (if (nc.root_node && nc.terminal_node) = true then throw (.conflictingRole nc.name)
          else pure ()) >>= fun _ =>
          (if (nc.root_node && nc.subscribers.isSome) = true then throw (.rootHasSubs nc.name)
            else pure ()) >>= fun _ =>
            if (nc.terminal_node && nc.publishers.isSome) = true then
              throw (.terminalHasPubs nc.name)
            else pure ()

/-- Embeds the `for node_config in environment['nodes']` loop. -/
def validateNodes : List NodeConfig → Except VError Unit
  | [] => .ok ()
  | nc :: rest => validateNode nc >>= fun _ => validateNodes rest

/-- Embeds the `for environment in config['environments']` loop. -/
def validateEnvs : List EnvConfig → Except VError Unit
  | [] => .ok ()
  | env :: rest => validateNodes env.nodes >>= fun _ => validateEnvs rest

/-- Embeds validate_config. -/
def validateConfig (cfg : Config) : Except VError Unit :=
  validateEnvs cfg.environments

/-- Every violation a single publisher contributes, in the order the code
checks them. -/
def pubViolations (nodeName : String) (p : PubConfig) : List VError :=
  (if p.qty.getD 1 < 1 then [.invalidPubQty p.name nodeName] else []) ++
    (if paramCount p < 2 then [.insufficientPubParams p.name nodeName] else [])

/-- Every violation a single subscriber contributes. -/
def subViolations (nodeName : String) (s : SubConfig) : List VError :=
  if s.qty.getD 1 < 1 then [.invalidSubQty s.name nodeName] else []

/-- Every violation a single node contributes, in the order the code checks
them: node quantity, publishers in declaration order, subscribers in
declaration order, then the three role rules. -/
def nodeViolations (nc : NodeConfig) : List VError :=
  (if nc.qty.getD 1 < 1 then [.invalidNodeQty nc.name] else []) ++
    ((nc.publishers.getD []).flatMap (pubViolations nc.name) ++
      ((nc.subscribers.getD []).flatMap (subViolations nc.name) ++
        ((if (nc.root_node && nc.terminal_node) = true then [.conflictingRole nc.name]
            else []) ++
          ((if (nc.root_node && nc.subscribers.isSome) = true then [.rootHasSubs nc.name]
              else []) ++
            (if (nc.terminal_node && nc.publishers.isSome) = true then
              [.terminalHasPubs nc.name]
            else [])))))

/-- Every violation of the whole config, in validate_config's traversal order:
environments in order, nodes in order within each environment, and within a
node the order of `nodeViolations`. -/
def violations (cfg : Config) : List VError :=
  cfg.environments.flatMap fun env => env.nodes.flatMap nodeViolations

/-- Raising the first violation of a list, or succeeding when there is none. -/
def toExcept : List VError → Except VError Unit
  | [] => .ok ()
  | e :: _ => .error e

theorem toExcept_bind (a b : List VError) :
    (toExcept a >>= fun _ => toExcept b) = toExcept (a ++ b) := by
  cases a <;> rfl

theorem ite_throw (c : Prop) [Decidable c] (e : VError) :
    (if c then throw e else pure () : Except VError Unit) =
      toExcept (if c then [e] else []) := by
  split <;> rfl

theorem validatePub_eq (n : String) (p : PubConfig) :
    validatePub n p = toExcept (pubViolations n p) := by
  unfold validatePub pubViolations
  rw [ite_throw, ite_throw, toExcept_bind]

theorem validatePubs_eq (n : String) (l : List PubConfig) :
    validatePubs n l = toExcept (l.flatMap (pubViolations n)) := by
  induction l with
  | nil => rfl
  | cons p rest ih =>
      show (validatePub n p >>= fun _ => validatePubs n rest) = _
      rw [validatePub_eq, ih, toExcept_bind]
      rfl

theorem validateSub_eq (n : String) (s : SubConfig) :
    validateSub n s = toExcept (subViolations n s) := by
  unfold validateSub subViolations
  rw [ite_throw]

theorem validateSubs_eq (n : String) (l : List SubConfig) :
    validateSubs n l = toExcept (l.flatMap (subViolations n)) := by
  induction l with
  | nil => rfl
  | cons s rest ih =>
      show (validateSub n s >>= fun _ => validateSubs n rest) = _
      rw [validateSub_eq, ih, toExcept_bind]
      rfl

theorem validateNode_eq (nc : NodeConfig) :
    validateNode nc = toExcept (nodeViolations nc) := by
  unfold validateNode nodeViolations
  rw [ite_throw, ite_throw, ite_throw, ite_throw, validatePubs_eq, validateSubs_eq,
    toExcept_bind, toExcept_bind, toExcept_bind, toExcept_bind, toExcept_bind]

theorem validateNodes_eq (l : List NodeConfig) :
    validateNodes l = toExcept (l.flatMap nodeViolations) := by
  induction l with
  | nil => rfl
  | cons nc rest ih =>
      show (validateNode nc >>= fun _ => validateNodes rest) = _
      rw [validateNode_eq, ih, toExcept_bind]
      rfl

theorem validateEnvs_eq (l : List EnvConfig) :
    validateEnvs l = toExcept (l.flatMap fun env => env.nodes.flatMap nodeViolations) := by
  induction l with
  | nil => rfl
  | cons env rest ih =>
      show (validateNodes env.nodes >>= fun _ => validateEnvs rest) = _
      rw [validateNodes_eq, ih, toExcept_bind]
      rfl

theorem validateConfig_eq (cfg : Config) :
    validateConfig cfg = toExcept (violations cfg) :=
  validateEnvs_eq cfg.environments

/-- Python dict assignment `d[k] = v` on a dict embedded as an association
list: overwrite the value in place when the key exists, append otherwise. -/
def dictInsert {α : Type} (d : List (String × α)) (k : String) (v : α) : List (String × α) :=
  if d.any (fun p => p.1 == k) then d.map (fun p => if p.1 == k then (k, v) else p)
  else d ++ [(k, v)]

/-- Python dict lookup `d[k]` on the association-list embedding. -/
def dictFind {α : Type} (d : List (String × α)) (k : String) : Option α :=
  (d.find? (fun p => p.1 == k)).map Prod.snd

/-- Embeds the `publish_topic` dict built for one publisher: `msg_size`,
`bandwidth`, `msg_frequency` inserted in that order, each only when present on
the publisher. -/
def pubTopicOf (p : PubConfig) : List (String × Val) :=
  let d : List (String × Val) := []
  let d := match p.msg_size with
    | some v => dictInsert d "msg_size" v
    | none => d
  let d := match p.bandwidth with
    | some v => dictInsert d "bandwidth" v
    | none => d
  match p.msg_frequency with
  | some v => dictInsert d "msg_frequency" v
  | none => d

/-- Embeds the `subscribe_topic` dict built for one subscriber:
`{'node': subscriber['node']}`. -/
def subTopicOf (s : SubConfig) : List (String × String) :=
  dictInsert [] "node" s.node

/-- Embeds Python's `range(1, n + 1)` over an integer bound: the values
`1 .. n`, empty when `n` is nonpositive. -/
def pyRange1 (n : Int) : List Nat :=
  (List.range n.toNat).map (· + 1)

/-- Embeds the body of process_publishers for one publisher: replicate the
topic by quantity with `_<num>` suffixes when `qty != 1`, else insert the bare
name. -/
def insertPubTopic (d : List (String × List (String × Val))) (p : PubConfig) :
    List (String × List (String × Val)) :=
  if p.qty.getD 1 ≠ 1 then
    (pyRange1 (p.qty.getD 1)).foldl
      (fun d num => dictInsert d (p.name ++ "_" ++ toString num) (pubTopicOf p)) d
  else dictInsert d p.name (pubTopicOf p)

/-- Embeds Config2Nodes.process_publishers. -/
def processPublishers (nc : NodeConfig) : List (String × List (String × Val)) :=
  (nc.publishers.getD []).foldl insertPubTopic []

/-- Embeds the body of process_subscribers for one subscriber. -/
def insertSubTopic (d : List (String × List (String × String))) (s : SubConfig) :
    List (String × List (String × String)) :=
  if s.qty.getD 1 ≠ 1 then
    (pyRange1 (s.qty.getD 1)).foldl
      (fun d num => dictInsert d (s.name ++ "_" ++ toString num) (subTopicOf s)) d
  else dictInsert d s.name (subTopicOf s)

/-- Embeds Config2Nodes.process_subscribers. -/
def processSubscribers (nc : NodeConfig) : List (String × List (String × String)) :=
  (nc.subscribers.getD []).foldl insertSubTopic []

/-- The launch_ros Node descriptor created by Config2Nodes.create_node, with
each constructor argument as a field. -/
structure RosNode where
  package : String
  executable : String
  name : String
  nodeNamespace : String
  root_node : Bool
  terminal_node : Bool
  publish_topics : List (String × List (String × Val))
  subscribe_topics : List (String × List (String × String))
  output : String
deriving DecidableEq, Repr

/-- Embeds Config2Nodes.create_node. -/
def createNode (name : String) (rootNode terminalNode : Bool)
    (pub : List (String × List (String × Val)))
    (sub : List (String × List (String × String))) : RosNode :=
  { package := "fabric_nodes", executable := "dummy_node_exe", name := name,
    nodeNamespace := name, root_node := rootNode, terminal_node := terminalNode,
    publish_topics := pub, subscribe_topics := sub, output := "screen" }

/-- Embeds Config2Nodes.generate_node.  The mutable `self.nodes` list is
threaded through as `acc`; each created node is appended to it.  Note the
branch is on the presence of the `qty` key, not on its value. -/
def generateNode (nc : NodeConfig) (nodeName : String) (rootNode terminalNode : Bool)
    (pub : List (String × List (String × Val)))
    (sub : List (String × List (String × String))) (acc : List RosNode) : List RosNode :=
  match nc.qty with
  | some n =>
      (pyRange1 n).foldl
        (fun acc num =>
          acc ++ [createNode (nodeName ++ "_" ++ toString num) rootNode terminalNode pub sub])
        acc
  | none => acc ++ [createNode nodeName rootNode terminalNode pub sub]

/-- Embeds the `for node_config in environment['nodes']` loop of
Config2Nodes.get_nodes. -/
def processNodeConfigs : List NodeConfig → List RosNode → List RosNode
  | [], acc => acc
  | nc :: rest, acc =>
      processNodeConfigs rest
        (generateNode nc nc.name nc.root_node nc.terminal_node (processPublishers nc)
          (processSubscribers nc) acc)

/-- Embeds the `for environment in self.config['environments']` loop of
Config2Nodes.get_nodes, with its hardcoded skip of every environment whose
name differs from `env1`. -/
def getNodesLoop : List EnvConfig → List RosNode → List RosNode
  | [], acc => acc
  | env :: rest, acc =>
      if env.name ≠ "env1" then getNodesLoop rest acc
      else getNodesLoop rest (processNodeConfigs env.nodes acc)

/-- Embeds `Config2Nodes(config).get_nodes()`: a fresh converter starts with
`self.nodes = []`. -/
def getNodes (cfg : Config) : List RosNode :=
  getNodesLoop cfg.environments []

/-- Embeds the validate-then-expand pipeline of generate_launch_description:
load_config validates the document, then a fresh Config2Nodes expands it. -/
def launchPipeline (cfg : Config) : Except VError (List RosNode) :=
  validateConfig cfg >>= fun _ => pure (getNodes cfg)

/-- Expansion of a single node entry exactly as get_nodes invokes
generate_node, starting from an empty descriptor list. -/
def expandNodeConfig (nc : NodeConfig) : List RosNode :=
  generateNode nc nc.name nc.root_node nc.terminal_node (processPublishers nc)
    (processSubscribers nc) []

/-- The instance names expansion gives a node entry: the bare name when the
`qty` key is absent, else `<name>_1 .. <name>_n` for `qty = n`. -/
def expandedNames (nc : NodeConfig) : List String :=
  match nc.qty with
  | some n => (pyRange1 n).map (fun num => nc.name ++ "_" ++ toString num)
  | none => [nc.name]

theorem foldl_append_singleton {α β : Type} (f : α → β) (l : List α) (acc : List β) :
    l.foldl (fun acc x => acc ++ [f x]) acc = acc ++ l.map f := by
  induction l generalizing acc with
  | nil => simp
  | cons x t ih => simp [List.foldl_cons, ih, List.append_assoc]

theorem generateNode_acc (nc : NodeConfig) (nm : String) (r t : Bool)
    (pub : List (String × List (String × Val)))
    (sub : List (String × List (String × String))) (acc : List RosNode) :
    generateNode nc nm r t pub sub acc = acc ++ generateNode nc nm r t pub sub [] := by
  cases h : nc.qty with
  | none => simp [generateNode, h]
  | some n =>
      simp only [generateNode, h]
      rw [foldl_append_singleton, foldl_append_singleton]
      simp

theorem expandNodeConfig_eq (nc : NodeConfig) :
    expandNodeConfig nc =
      (expandedNames nc).map
        (fun s => createNode s nc.root_node nc.terminal_node (processPublishers nc)
          (processSubscribers nc)) := by
  cases h : nc.qty with
  | none => simp [expandNodeConfig, generateNode, expandedNames, h]
  | some n =>
      simp only [expandNodeConfig, generateNode, expandedNames, h]
      rw [foldl_append_singleton]
      simp [List.map_map]

theorem processNodeConfigs_eq (l : List NodeConfig) (acc : List RosNode) :
    processNodeConfigs l acc = acc ++ l.flatMap expandNodeConfig := by
  induction l generalizing acc with
  | nil => simp [processNodeConfigs]
  | cons nc rest ih =>
      show processNodeConfigs rest (generateNode nc nc.name nc.root_node nc.terminal_node
        (processPublishers nc) (processSubscribers nc) acc) = _
      rw [ih, generateNode_acc]
      simp [List.append_assoc, expandNodeConfig]

theorem getNodesLoop_eq (l : List EnvConfig) (acc : List RosNode) :
    getNodesLoop l acc =
      acc ++ (l.filter (fun e => e.name == "env1")).flatMap
        (fun e => e.nodes.flatMap expandNodeConfig) := by
  induction l generalizing acc with
  | nil => simp [getNodesLoop]
  | cons env rest ih =>
      show (if env.name ≠ "env1" then getNodesLoop rest acc
        else getNodesLoop rest (processNodeConfigs env.nodes acc)) = _
      by_cases h : env.name = "env1"
      · simp only [h, ne_eq, not_true_eq_false, if_false, List.filter_cons,
          beq_self_eq_true, if_true]
        rw [ih, processNodeConfigs_eq]
        simp [List.append_assoc]
      · simp only [h, ne_eq, not_false_eq_true, if_true, List.filter_cons]
        rw [ih]
        simp [h]

theorem getNodes_eq (cfg : Config) :
    getNodes cfg =
      (cfg.environments.filter (fun e => e.name == "env1")).flatMap
        (fun e => e.nodes.flatMap expandNodeConfig) := by
  unfold getNodes
  rw [getNodesLoop_eq]
  rfl

/-- Python's `k in d` on the association-list embedding of a dict. -/
def containsKey {α : Type} (d : List (String × α)) (k : String) : Bool :=
  d.any (fun p => p.1 == k)

/-- The value of the last assignment to key `k` in a sequence of
key-value assignments, if any. -/
def lastVal {α : Type} : List (String × α) → String → Option α
  | [], _ => none
  | kv :: t, k =>
      match lastVal t k with
      | some v => some v
      | none => if kv.1 = k then some kv.2 else none

theorem replaceEntry_key_beq {α : Type} (k k' : String) (v : α) (p : String × α) :
    ((if p.1 == k' then (k', v) else p).1 == k) = (p.1 == k) := by
  by_cases h : p.1 = k' <;> simp [h]

theorem dictFind_dictInsert_self {α : Type} (d : List (String × α)) (k : String) (v : α) :
    dictFind (dictInsert d k v) k = some v := by
  unfold dictFind dictInsert
  by_cases hc : d.any (fun p => p.1 == k)
  · rw [if_pos hc, List.find?_map]
    have hpc : ((fun p : String × α => p.1 == k) ∘
        fun p : String × α => if p.1 == k then (k, v) else p) =
        fun p : String × α => p.1 == k := by
      funext p
      exact replaceEntry_key_beq k k v p
    rw [hpc]
    rcases List.any_eq_true.mp hc with ⟨q, hq, hqk⟩
    cases hf : d.find? (fun p => p.1 == k) with
    | none => exact absurd hqk (List.find?_eq_none.mp hf q hq)
    | some r =>
        have hrk := List.find?_some hf
        have hrk' : r.1 = k := by simpa using hrk
        simp [hrk']
  · rw [if_neg hc, List.find?_append]
    have hnone : d.find? (fun p => p.1 == k) = none := by
      rw [List.find?_eq_none]
      intro x hx hxk
      exact hc (List.any_eq_true.mpr ⟨x, hx, hxk⟩)
    simp [hnone, List.find?]

theorem dictFind_dictInsert_ne {α : Type} (d : List (String × α)) (k k' : String) (v : α)
    (h : k' ≠ k) :
    dictFind (dictInsert d k' v) k = dictFind d k := by
  unfold dictFind dictInsert
  by_cases hc : d.any (fun p => p.1 == k')
  · rw [if_pos hc, List.find?_map]
    have hpc : ((fun p : String × α => p.1 == k) ∘
        fun p : String × α => if p.1 == k' then (k', v) else p) =
        fun p : String × α => p.1 == k := by
      funext p
      exact replaceEntry_key_beq k k' v p
    rw [hpc]
    cases hf : d.find? (fun p => p.1 == k) with
    | none => rfl
    | some r =>
        have hrk := List.find?_some hf
        have hrk' : r.1 = k := by simpa using hrk
        simp [hrk', Ne.symm h]
  · rw [if_neg hc, List.find?_append]
    have hone : ((k', v) :: []).find? (fun p => p.1 == k) = none := by
      have : (k' == k) = false := by simp [h]
      simp [List.find?, this]
    rw [hone]
    cases d.find? (fun p => p.1 == k) <;> rfl

theorem dictFind_foldl_insert {α : Type} (l : List (String × α)) (d : List (String × α))
    (k : String) :
    dictFind (l.foldl (fun d kv => dictInsert d kv.1 kv.2) d) k =
      match lastVal l k with
      | some v => some v
      | none => dictFind d k := by
  induction l generalizing d with
  | nil => rfl
  | cons kv t ih =>
      rw [List.foldl_cons, ih]
      show _ = (match (match lastVal t k with
        | some v => some v
        | none => if kv.1 = k then some kv.2 else none) with
        | some v => some v
        | none => dictFind d k)
      cases lastVal t k with
      | some v => rfl
      | none =>
          by_cases hk : kv.1 = k
          · subst hk
            simp [dictFind_dictInsert_self]
          · rw [if_neg hk, dictFind_dictInsert_ne d k kv.1 kv.2 hk]

theorem length_dictInsert {α : Type} (d : List (String × α)) (k : String) (v : α) :
    (dictInsert d k v).length = if containsKey d k then d.length else d.length + 1 := by
  unfold dictInsert containsKey
  split
  all_goals simp_all

theorem containsKey_dictInsert {α : Type} (d : List (String × α)) (k k' : String) (v : α) :
    containsKey (dictInsert d k' v) k = (containsKey d k || (k' == k)) := by
  unfold containsKey dictInsert
  by_cases hc : d.any (fun p => p.1 == k')
  · rw [if_pos hc, List.any_map]
    have hpc : ((fun p : String × α => p.1 == k) ∘
        fun p : String × α => if p.1 == k' then (k', v) else p) =
        fun p : String × α => p.1 == k := by
      funext p
      exact replaceEntry_key_beq k k' v p
    rw [hpc]
    by_cases hk : k' == k
    · have hkk : k' = k := by simpa using hk
      subst hkk
      simp [hc]
    · simp [hk]
  · rw [if_neg hc, List.any_append]
    simp [List.any]

theorem length_foldl_insert_le {α : Type} (l : List (String × α)) (d : List (String × α)) :
    (l.foldl (fun d kv => dictInsert d kv.1 kv.2) d).length ≤ d.length + l.length := by
  induction l generalizing d with
  | nil => simp
  | cons kv t ih =>
      rw [List.foldl_cons]
      calc (t.foldl (fun d kv => dictInsert d kv.1 kv.2) (dictInsert d kv.1 kv.2)).length
          ≤ (dictInsert d kv.1 kv.2).length + t.length := ih _
        _ ≤ d.length + (kv :: t).length := by
            rw [length_dictInsert]
            split
            all_goals simp
            all_goals omega

theorem length_foldl_insert_lt_of_mem {α : Type} (l : List (String × α)) :
    ∀ (d : List (String × α)) (k : String), k ∈ l.map Prod.fst → containsKey d k = true →
      (l.foldl (fun d kv => dictInsert d kv.1 kv.2) d).length < d.length + l.length := by
  induction l with
  | nil => intro d k hk _; simp at hk
  | cons kv t ih =>
      intro d k hk hd
      rw [List.foldl_cons]
      rcases List.mem_cons.mp hk with hk1 | hk2
      · have heq : containsKey d kv.1 = true := by rw [← hk1]; exact hd
        have hlen : (dictInsert d kv.1 kv.2).length = d.length := by
          rw [length_dictInsert, if_pos heq]
        calc (t.foldl (fun d kv => dictInsert d kv.1 kv.2) (dictInsert d kv.1 kv.2)).length
            ≤ (dictInsert d kv.1 kv.2).length + t.length := length_foldl_insert_le t _
          _ = d.length + t.length := by rw [hlen]
          _ < d.length + (kv :: t).length := by simp
      · have hd' : containsKey (dictInsert d kv.1 kv.2) k = true := by
          rw [containsKey_dictInsert, hd, Bool.true_or]
        have := ih (dictInsert d kv.1 kv.2) k hk2 hd'
        have hle : (dictInsert d kv.1 kv.2).length ≤ d.length + 1 := by
          rw [length_dictInsert]
          split
          all_goals omega
        calc (t.foldl (fun d kv => dictInsert d kv.1 kv.2) (dictInsert d kv.1 kv.2)).length
            < (dictInsert d kv.1 kv.2).length + t.length := this
          _ ≤ d.length + (kv :: t).length := by simp; omega

theorem length_foldl_insert_lt_of_dup {α : Type} (l : List (String × α)) :
    ∀ d : List (String × α), ¬ (l.map Prod.fst).Nodup →
      (l.foldl (fun d kv => dictInsert d kv.1 kv.2) d).length < d.length + l.length := by
  induction l with
  | nil => intro d h; exact absurd List.nodup_nil h
  | cons kv t ih =>
      intro d h
      rw [List.foldl_cons]
      by_cases hmem : kv.1 ∈ t.map Prod.fst
      · have hck : containsKey (dictInsert d kv.1 kv.2) kv.1 = true := by
          rw [containsKey_dictInsert]
          simp
        calc (t.foldl (fun d kv => dictInsert d kv.1 kv.2) (dictInsert d kv.1 kv.2)).length
            < (dictInsert d kv.1 kv.2).length + t.length :=
              length_foldl_insert_lt_of_mem t _ kv.1 hmem hck
          _ ≤ d.length + (kv :: t).length := by
              rw [length_dictInsert]
              split
              all_goals simp
              all_goals omega
      · have hdup : ¬ (t.map Prod.fst).Nodup := by
          intro hnd
          exact h (by simpa [List.nodup_cons] using And.intro hmem hnd)
        have hle : (dictInsert d kv.1 kv.2).length ≤ d.length + 1 := by
          rw [length_dictInsert]
          split
          all_goals omega
        calc (t.foldl (fun d kv => dictInsert d kv.1 kv.2) (dictInsert d kv.1 kv.2)).length
            < (dictInsert d kv.1 kv.2).length + t.length := ih _ hdup
          _ ≤ d.length + (kv :: t).length := by simp; omega

/-- The topic names one publisher entry generates: `_<num>` suffixes when its
`qty` value is not 1, the bare name otherwise. -/
def pubNames (p : PubConfig) : List String :=
  if p.qty.getD 1 ≠ 1 then
    (pyRange1 (p.qty.getD 1)).map (fun num => p.name ++ "_" ++ toString num)
  else [p.name]

/-- The ordered key-value assignments process_publishers performs on the
`publish_topics` dict: publishers in declaration order, replicas in
increasing suffix order. -/
def pubAssignments (nc : NodeConfig) : List (String × List (String × Val)) :=
  (nc.publishers.getD []).flatMap (fun p => (pubNames p).map (fun nm => (nm, pubTopicOf p)))

/-- The topic names one subscriber entry generates. -/
def subNames (s : SubConfig) : List String :=
  if s.qty.getD 1 ≠ 1 then
    (pyRange1 (s.qty.getD 1)).map (fun num => s.name ++ "_" ++ toString num)
  else [s.name]

/-- The ordered key-value assignments process_subscribers performs on the
`subscribe_topics` dict. -/
def subAssignments (nc : NodeConfig) : List (String × List (String × String)) :=
  (nc.subscribers.getD []).flatMap (fun s => (subNames s).map (fun nm => (nm, subTopicOf s)))

theorem foldl_flatMap {α β γ : Type} (f : α → List β) (g : γ → β → γ) (l : List α) (init : γ) :
    (l.flatMap f).foldl g init = l.foldl (fun acc x => (f x).foldl g acc) init := by
  induction l generalizing init with
  | nil => rfl
  | cons x t ih => simp [List.flatMap_cons, List.foldl_append, ih]

theorem insertPubTopic_eq (d : List (String × List (String × Val))) (p : PubConfig) :
    insertPubTopic d p =
      ((pubNames p).map (fun nm => (nm, pubTopicOf p))).foldl
        (fun d kv => dictInsert d kv.1 kv.2) d := by
  unfold insertPubTopic pubNames
  by_cases h : p.qty.getD 1 ≠ 1
  · rw [if_pos h, if_pos h, List.map_map, List.foldl_map]
    rfl
  · rw [if_neg h, if_neg h]
    rfl

theorem insertSubTopic_eq (d : List (String × List (String × String))) (s : SubConfig) :
    insertSubTopic d s =
      ((subNames s).map (fun nm => (nm, subTopicOf s))).foldl
        (fun d kv => dictInsert d kv.1 kv.2) d := by
  unfold insertSubTopic subNames
  by_cases h : s.qty.getD 1 ≠ 1
  · rw [if_pos h, if_pos h, List.map_map, List.foldl_map]
    rfl
  · rw [if_neg h, if_neg h]
    rfl

theorem foldl_congr_fun {α β : Type} (f g : α → β → α) (l : List β) (init : α)
    (h : ∀ a b, f a b = g a b) : l.foldl f init = l.foldl g init := by
  induction l generalizing init with
  | nil => rfl
  | cons x t ih => simp only [List.foldl_cons, h, ih]

theorem processPublishers_eq_fold (nc : NodeConfig) :
    processPublishers nc =
      (pubAssignments nc).foldl (fun d kv => dictInsert d kv.1 kv.2) [] := by
  unfold processPublishers pubAssignments
  rw [foldl_flatMap]
  exact foldl_congr_fun _ _ _ _ (fun d p => insertPubTopic_eq d p)

theorem processSubscribers_eq_fold (nc : NodeConfig) :
    processSubscribers nc =
      (subAssignments nc).foldl (fun d kv => dictInsert d kv.1 kv.2) [] := by
  unfold processSubscribers subAssignments
  rw [foldl_flatMap]
  exact foldl_congr_fun _ _ _ _ (fun d s => insertSubTopic_eq d s)

theorem length_pubNames (p : PubConfig) : (pubNames p).length = (p.qty.getD 1).toNat := by
  unfold pubNames pyRange1
  by_cases h : p.qty.getD 1 ≠ 1
  · rw [if_pos h]
    simp
  · rw [if_neg h]
    push_neg at h
    rw [h]
    rfl

theorem length_subNames (s : SubConfig) : (subNames s).length = (s.qty.getD 1).toNat := by
  unfold subNames pyRange1
  by_cases h : s.qty.getD 1 ≠ 1
  · rw [if_pos h]
    simp
  · rw [if_neg h]
    push_neg at h
    rw [h]
    rfl

/-- The sum of the (defaulted) publisher quantities of a node entry. -/
def sumPubQty (nc : NodeConfig) : Nat :=
  ((nc.publishers.getD []).map (fun p => (p.qty.getD 1).toNat)).sum

/-- The sum of the (defaulted) subscriber quantities of a node entry. -/
def sumSubQty (nc : NodeConfig) : Nat :=
  ((nc.subscribers.getD []).map (fun s => (s.qty.getD 1).toNat)).sum

theorem length_pubAssignments (nc : NodeConfig) :
    (pubAssignments nc).length = sumPubQty nc := by
  unfold pubAssignments sumPubQty
  rw [List.length_flatMap]
  have hf : (List.length ∘ fun p : PubConfig => (pubNames p).map (fun nm => (nm, pubTopicOf p)))
      = fun p : PubConfig => (p.qty.getD 1).toNat := by
    funext p
    simp [length_pubNames]
  rw [hf]

theorem length_subAssignments (nc : NodeConfig) :
    (subAssignments nc).length = sumSubQty nc := by
  unfold subAssignments sumSubQty
  rw [List.length_flatMap]
  have hf : (List.length ∘ fun s : SubConfig => (subNames s).map (fun nm => (nm, subTopicOf s)))
      = fun s : SubConfig => (s.qty.getD 1).toNat := by
    funext s
    simp [length_subNames]
  rw [hf]

theorem toExcept_error_iff (l : List VError) (e : VError) :
    toExcept l = .error e ↔ l.head? = some e := by
  cases l <;> simp [toExcept]

/-
  Concrete configurations used to witness and refute the claims.
-/

/-- A node entry carrying an explicit `qty: 1` key. -/
def nodeXqty1 : NodeConfig :=
  { name := "X", root_node := true, terminal_node := false, qty := some 1,
    publishers := none, subscribers := none }

/-- A node entry with no `qty` key. -/
def nodeDefaultQty : NodeConfig :=
  { name := "D", root_node := false, terminal_node := false, qty := none,
    publishers := none, subscribers := none }

/-- A node entry with `qty: 3`. -/
def nodeQty3 : NodeConfig :=
  { name := "N", root_node := false, terminal_node := false, qty := some 3,
    publishers := none, subscribers := none }

/-- The end-to-end example document of the design: environment env1 with a
root sensor publishing img and a terminal consumer subscribing to it. -/
def cfgExample : Config :=
  ⟨[⟨"env1",
    [{ name := "sensor", root_node := true, terminal_node := false, qty := none,
       publishers := some [{ name := "img", qty := none, bandwidth := some 50,
                             msg_size := some 100, msg_frequency := none }],
       subscribers := none },
     { name := "consumer", root_node := false, terminal_node := true, qty := none,
       publishers := none,
       subscribers := some [{ name := "img", node := "sensor", qty := none }] }]⟩]⟩

/-- A root node whose `subscribers` key is present but holds the empty list. -/
def rootEmptySubs : NodeConfig :=
  { name := "r", root_node := true, terminal_node := false, qty := none,
    publishers := none, subscribers := some [] }

/-- A single valid environment named env2 holding one plain node. -/
def cfgEnv2 : Config :=
  ⟨[⟨"env2",
    [{ name := "m", root_node := false, terminal_node := false, qty := none,
       publishers := none, subscribers := none }]⟩]⟩

/-- C1 counterexample: a NodeSpec carrying the quantity 1 explicitly expands
to a single descriptor named `X_1`, not the unmodified base name `X`:
generate_node branches on the presence of the qty key, so an explicit
quantity of 1 is suffixed. -/
theorem c1_counterexample_explicit_qty1 :
    (expandNodeConfig nodeXqty1).map RosNode.name = ["X_1"] ∧
      (expandNodeConfig nodeXqty1).map RosNode.name ≠ ["X"] := by
  refine ⟨rfl, ?_⟩
  decide

/-- C1 (amended): expansion of a node entry yields exactly one descriptor
with the base name unmodified when the qty key is absent (the defaulted
quantity 1), and for a present qty value n the descriptors
`<name>_1 .. <name>_n` in increasing k — so an explicit qty of 1 yields the
single suffixed name `<name>_1`, not the base name.  Every descriptor of the
entry carries the same publish and subscribe topic maps. -/
theorem c1_node_quantity_expansion (nc : NodeConfig) :
    (nc.qty = none → expandNodeConfig nc =
      [createNode nc.name nc.root_node nc.terminal_node (processPublishers nc)
        (processSubscribers nc)]) ∧
    (∀ n : Int, nc.qty = some n →
      (expandNodeConfig nc).map RosNode.name =
        (List.range n.toNat).map (fun k => nc.name ++ "_" ++ toString (k + 1))) ∧
    (∀ d ∈ expandNodeConfig nc,
      d.publish_topics = processPublishers nc ∧ d.subscribe_topics = processSubscribers nc) := by
  refine ⟨fun h => ?_, fun n h => ?_, fun d hd => ?_⟩
  · rw [expandNodeConfig_eq]
    simp [expandedNames, h]
  · rw [expandNodeConfig_eq]
    simp only [expandedNames, h, pyRange1, List.map_map]
    rfl
  · rw [expandNodeConfig_eq] at hd
    rcases List.mem_map.mp hd with ⟨s, _, rfl⟩
    exact ⟨rfl, rfl⟩

/-- Witness for the amended C1 at two concrete node entries: a defaulted
quantity and an explicit qty of 3. -/
theorem c1_node_quantity_expansion_witness :
    expandNodeConfig nodeDefaultQty =
      [createNode "D" false false (processPublishers nodeDefaultQty)
        (processSubscribers nodeDefaultQty)] ∧
    (expandNodeConfig nodeQty3).map RosNode.name =
      (List.range (3 : Int).toNat).map (fun k => "N" ++ "_" ++ toString (k + 1)) :=
  ⟨(c1_node_quantity_expansion nodeDefaultQty).1 rfl,
   (c1_node_quantity_expansion nodeQty3).2.1 3 rfl⟩

/-- C2: for every config the validator accepts, the validate-then-expand
pipeline succeeds and returns the expander's descriptor sequence: expansion
is total on validated configs and contributes no error of its own. -/
theorem c2_expansion_total (cfg : Config) (h : validateConfig cfg = .ok ()) :
    launchPipeline cfg = .ok (getNodes cfg) := by
  unfold launchPipeline
  rw [h]
  rfl

/-- Witness for C2 at the example document. -/
theorem c2_expansion_total_witness :
    launchPipeline cfgExample = .ok (getNodes cfgExample) :=
  c2_expansion_total cfgExample rfl

/-- C3: expansion of a validated config is deterministic and idempotent
across repeated calls: a fresh run always returns the one sequence determined
by the config, and running the converter loop from any accumulated state
appends exactly that sequence, so two fresh invocations agree. -/
theorem c3_expansion_deterministic (cfg : Config) (h : validateConfig cfg = .ok ()) :
    getNodes cfg = getNodes cfg ∧
      ∀ acc : List RosNode, getNodesLoop cfg.environments acc = acc ++ getNodes cfg := by
  refine ⟨rfl, fun acc => ?_⟩
  rw [getNodesLoop_eq, getNodes_eq]

/-- Witness for C3 at the example document. -/
theorem c3_expansion_deterministic_witness :
    getNodesLoop cfgExample.environments [] = [] ++ getNodes cfgExample :=
  (c3_expansion_deterministic cfgExample rfl).2 []

/-- C4 counterexample: a root node that declares zero SubscriberSpecs but
whose subscribers key is present (as an empty list) is rejected with the
RootNodeHasSubscribers error, refuting rejection-iff-nonempty. -/
theorem c4_counterexample_empty_subscribers :
    rootEmptySubs.subscribers = some [] ∧
      validateConfig ⟨[⟨"e", [rootEmptySubs]⟩]⟩ = .error (.rootHasSubs "r") :=
  ⟨rfl, rfl⟩

/-- C4 (amended): for a root (resp. terminal) node free of other violations,
the validator rejects with RootNodeHasSubscribers (resp.
TerminalNodeHasPublishers) exactly when the subscribers (resp. publishers)
key is present — even holding an empty list — and accepts exactly when the
key is absent. -/
theorem c4_role_rules_key_presence :
    (∀ nc : NodeConfig, nc.root_node = true → nc.terminal_node = false →
      1 ≤ nc.qty.getD 1 →
      (∀ p ∈ nc.publishers.getD [], 1 ≤ p.qty.getD 1 ∧ 2 ≤ paramCount p) →
      (∀ s ∈ nc.subscribers.getD [], 1 ≤ s.qty.getD 1) →
      ((validateConfig ⟨[⟨"e", [nc]⟩]⟩ = .error (.rootHasSubs nc.name) ↔
          nc.subscribers.isSome = true) ∧
        (validateConfig ⟨[⟨"e", [nc]⟩]⟩ = .ok () ↔ nc.subscribers = none))) ∧
    (∀ nc : NodeConfig, nc.root_node = false → nc.terminal_node = true →
      1 ≤ nc.qty.getD 1 →
      (∀ p ∈ nc.publishers.getD [], 1 ≤ p.qty.getD 1 ∧ 2 ≤ paramCount p) →
      (∀ s ∈ nc.subscribers.getD [], 1 ≤ s.qty.getD 1) →
      ((validateConfig ⟨[⟨"e", [nc]⟩]⟩ = .error (.terminalHasPubs nc.name) ↔
          nc.publishers.isSome = true) ∧
        (validateConfig ⟨[⟨"e", [nc]⟩]⟩ = .ok () ↔ nc.publishers = none))) := by
  have key : ∀ nc : NodeConfig, 1 ≤ nc.qty.getD 1 →
      (∀ p ∈ nc.publishers.getD [], 1 ≤ p.qty.getD 1 ∧ 2 ≤ paramCount p) →
      (∀ s ∈ nc.subscribers.getD [], 1 ≤ s.qty.getD 1) →
      violations ⟨[⟨"e", [nc]⟩]⟩ =
        (if (nc.root_node && nc.terminal_node) = true then [.conflictingRole nc.name]
          else []) ++
        ((if (nc.root_node && nc.subscribers.isSome) = true then [.rootHasSubs nc.name]
            else []) ++
          (if (nc.terminal_node && nc.publishers.isSome) = true then
            [.terminalHasPubs nc.name] else [])) := by
    intro nc hq hp hs
    have hq' : ¬ (nc.qty.getD 1 < 1) := by omega
    have hpv : (nc.publishers.getD []).flatMap (pubViolations nc.name) = [] := by
      rw [List.flatMap_eq_nil_iff]
      intro p hpmem
      have := hp p hpmem
      have h1 : ¬ (p.qty.getD 1 < 1) := by omega
      have h2 : ¬ (paramCount p < 2) := by omega
      simp [pubViolations, h1, h2]
    have hsv : (nc.subscribers.getD []).flatMap (subViolations nc.name) = [] := by
      rw [List.flatMap_eq_nil_iff]
      intro s hsmem
      have h1 : ¬ (s.qty.getD 1 < 1) := by have := hs s hsmem; omega
      simp [subViolations, h1]
    unfold violations
    simp only [List.flatMap_cons, List.flatMap_nil, List.append_nil]
    unfold nodeViolations
    rw [if_neg hq', hpv, hsv]
    simp
  constructor
  · intro nc hr ht hq hp hs
    have hv := key nc hq hp hs
    rw [validateConfig_eq, hv]
    cases hsub : nc.subscribers with
    | none => simp [hr, ht, hsub, toExcept]
    | some l => simp [hr, ht, hsub, toExcept]
  · intro nc hr ht hq hp hs
    have hv := key nc hq hp hs
    rw [validateConfig_eq, hv]
    cases hpub : nc.publishers with
    | none => simp [hr, ht, hpub, toExcept]
    | some l => simp [hr, ht, hpub, toExcept]

/-- Witness for the amended C4 at the concrete empty-subscribers root node. -/
theorem c4_role_rules_key_presence_witness :
    validateConfig ⟨[⟨"e", [rootEmptySubs]⟩]⟩ = .error (.rootHasSubs "r") ↔
      rootEmptySubs.subscribers.isSome = true :=
  ((c4_role_rules_key_presence).1 rootEmptySubs rfl rfl (by decide)
    (by simp [rootEmptySubs]) (by simp [rootEmptySubs])).1

/-- C5 counterexample: a validated config whose only environment is named
env2 — one environment matching a target name env2, holding one node — still
expands to the empty sequence: get_nodes hardcodes the name env1 and never
selects the matching environment. -/
theorem c5_counterexample_env2_skipped :
    validateConfig cfgEnv2 = .ok () ∧
      (cfgEnv2.environments.filter (fun e => e.name == "env2")).length = 1 ∧
      (cfgEnv2.environments.flatMap EnvConfig.nodes).length = 1 ∧
      getNodes cfgEnv2 = [] :=
  ⟨rfl, rfl, rfl, rfl⟩

/-- C5 (amended): expansion filters environments by the fixed name env1: it
emits, in order, the expansions of the node entries of every environment
named env1, and yields the empty sequence when no environment bears that
name — whatever target the caller intended. -/
theorem c5_env1_hardcoded (cfg : Config) :
    getNodes cfg =
      (cfg.environments.filter (fun e => e.name == "env1")).flatMap
        (fun e => e.nodes.flatMap expandNodeConfig) ∧
      ((∀ e ∈ cfg.environments, e.name ≠ "env1") → getNodes cfg = []) := by
  refine ⟨getNodes_eq cfg, fun h => ?_⟩
  rw [getNodes_eq]
  have hnil : cfg.environments.filter (fun e => e.name == "env1") = [] := by
    rw [List.filter_eq_nil_iff]
    intro e he
    simpa using h e he
  rw [hnil]
  rfl

/-- Witness for the amended C5 at the env2-only document. -/
theorem c5_env1_hardcoded_witness : getNodes cfgEnv2 = [] :=
  (c5_env1_hardcoded cfgEnv2).2 (by decide)

theorem append_ne_of_suffix_ne (a : String) {b c : String} (h : b ≠ c) : a ++ b ≠ a ++ c := by
  intro he
  have hd : a.data ++ b.data = a.data ++ c.data := by
    rw [← String.data_append, ← String.data_append, he]
  exact h (String.ext (List.append_cancel_left hd))

theorem dictInsert_two {α : Type} (k1 k2 : String) (v1 v2 : α) (h : (k1 == k2) = false) :
    dictInsert (dictInsert [] k1 v1) k2 v2 = [(k1, v1), (k2, v2)] := by
  simp [dictInsert, h]

/-- A publisher entry with the given name, qty 2, and exactly the msg_size
and bandwidth characterization fields present. -/
def pubQty2 (nm : String) (s b : Val) : PubConfig :=
  { name := nm, qty := some 2, bandwidth := some b, msg_size := some s,
    msg_frequency := none }

/-- A node publishing `cam` with qty 2, msg_size 100 and bandwidth 50. -/
def nodeCam : NodeConfig :=
  { name := "c", root_node := true, terminal_node := false, qty := none,
    publishers := some [pubQty2 "cam" 100 50], subscribers := none }

/-- C6: a publisher with qty 2 whose msg_size and bandwidth are present (and
msg_frequency absent) expands to publish_topics with exactly the keys
`<name>_1` and `<name>_2`, each bound to the same map holding exactly the
msg_size and bandwidth values; and in general the per-topic map holds exactly
the characterization fields present on the publisher, inserted in msg_size,
bandwidth, msg_frequency order. -/
theorem c6_topic_expansion :
    (∀ (nm : String) (s b : Val) (nc : NodeConfig),
      nc.publishers = some [pubQty2 nm s b] →
      processPublishers nc =
        [(nm ++ "_1", [("msg_size", s), ("bandwidth", b)]),
         (nm ++ "_2", [("msg_size", s), ("bandwidth", b)])]) ∧
    (∀ p : PubConfig, pubTopicOf p =
      (match p.msg_size with | some v => [("msg_size", v)] | none => []) ++
        ((match p.bandwidth with | some v => [("bandwidth", v)] | none => []) ++
          (match p.msg_frequency with | some v => [("msg_frequency", v)] | none => []))) := by
  constructor
  · intro nm s b nc h
    have hne : ((nm ++ "_" ++ toString (1 : Nat) : String) ==
        (nm ++ "_" ++ toString (2 : Nat))) = false :=
      beq_eq_false_iff_ne.mpr (append_ne_of_suffix_ne (nm ++ "_") (by decide))
    have h1 : (nm ++ "_" ++ toString (1 : Nat)) = nm ++ "_1" := by
      rw [String.append_assoc]
      rfl
    have h2 : (nm ++ "_" ++ toString (2 : Nat)) = nm ++ "_2" := by
      rw [String.append_assoc]
      rfl
    calc processPublishers nc
        = dictInsert (dictInsert [] (nm ++ "_" ++ toString (1 : Nat))
            [("msg_size", s), ("bandwidth", b)]) (nm ++ "_" ++ toString (2 : Nat))
            [("msg_size", s), ("bandwidth", b)] := by
          rw [processPublishers, h]
          rfl
      _ = [(nm ++ "_" ++ toString (1 : Nat), [("msg_size", s), ("bandwidth", b)]),
           (nm ++ "_" ++ toString (2 : Nat), [("msg_size", s), ("bandwidth", b)])] :=
          dictInsert_two _ _ _ _ hne
      _ = [(nm ++ "_1", [("msg_size", s), ("bandwidth", b)]),
           (nm ++ "_2", [("msg_size", s), ("bandwidth", b)])] := by rw [h1, h2]
  · intro p
    obtain ⟨pn, pq, pb, pms, pmf⟩ := p
    cases pb <;> cases pms <;> cases pmf <;> rfl

/-- Witness for C6 at the cam publisher, msg_size 100 and bandwidth 50. -/
theorem c6_topic_expansion_witness :
    processPublishers nodeCam =
      [("cam" ++ "_1", [("msg_size", 100), ("bandwidth", 50)]),
       ("cam" ++ "_2", [("msg_size", 100), ("bandwidth", 50)])] :=
  c6_topic_expansion.1 "cam" 100 50 nodeCam rfl

/-- A single-environment document holding one role-free default-quantity node
named n that carries exactly the one given publisher. -/
def cfgOnePub (p : PubConfig) : Config :=
  ⟨[⟨"e",
    [{ name := "n", root_node := false, terminal_node := false, qty := none,
       publishers := some [p], subscribers := none }]⟩]⟩

/-- C7: a publisher with a valid quantity is rejected with
InsufficientPublisherParameters exactly when fewer than two of bandwidth,
msg_size and msg_frequency are present (0 or 1 of them), and accepted exactly
when at least two (2 or 3) are present. -/
theorem c7_publisher_two_of_three (p : PubConfig) (h : 1 ≤ p.qty.getD 1) :
    (validateConfig (cfgOnePub p) = .error (.insufficientPubParams p.name "n") ↔
      paramCount p < 2) ∧
    (validateConfig (cfgOnePub p) = .ok () ↔ 2 ≤ paramCount p) := by
  have hq : ¬ (p.qty.getD 1 < 1) := by omega
  have hv : violations (cfgOnePub p) =
      if paramCount p < 2 then [.insufficientPubParams p.name "n"] else [] := by
    unfold violations cfgOnePub
    simp only [List.flatMap_cons, List.flatMap_nil, List.append_nil]
    unfold nodeViolations
    simp [pubViolations, hq]
  rw [validateConfig_eq, hv]
  by_cases hc : paramCount p < 2
  · rw [if_pos hc]
    constructor
    · simp [toExcept, hc]
    · constructor
      · intro hcontra
        exact absurd hcontra (by simp [toExcept])
      · intro h2
        exact absurd h2 (by omega)
  · rw [if_neg hc]
    constructor
    · constructor
      · intro hcontra
        exact absurd hcontra (by simp [toExcept])
      · intro h2
        exact absurd h2 hc
    · simp [toExcept]
      omega

/-- A publisher entry with exactly two characterization fields and no qty. -/
def pubTwoFields : PubConfig :=
  { name := "q", qty := none, bandwidth := some 1, msg_size := some 2,
    msg_frequency := none }

/-- Witness for C7 at a publisher carrying two of the three fields. -/
theorem c7_publisher_two_of_three_witness :
    validateConfig (cfgOnePub pubTwoFields) = .ok () :=
  (c7_publisher_two_of_three pubTwoFields (by decide)).2.mpr (by decide)

/-- C8: the validator fails fast with the first violation in document
traversal order: it reports e exactly when e heads the violation list
enumerated environment by environment, node by node within an environment,
and within a node publishers then subscribers in declaration order (the
order of nodeViolations). -/
theorem c8_first_violation_in_document_order (cfg : Config) (e : VError) :
    validateConfig cfg = .error e ↔
      (cfg.environments.flatMap fun env => env.nodes.flatMap nodeViolations).head? =
        some e := by
  rw [validateConfig_eq]
  exact toExcept_error_iff (violations cfg) e

/-- A node whose only publisher has no characterization fields. -/
def nodeBadPub : NodeConfig :=
  { name := "a", root_node := false, terminal_node := false, qty := none,
    publishers := some [{ name := "p", qty := none, bandwidth := none,
                          msg_size := none, msg_frequency := none }],
    subscribers := none }

/-- A node with an explicit qty of 0. -/
def nodeQtyZero : NodeConfig :=
  { name := "b", root_node := false, terminal_node := false, qty := some 0,
    publishers := none, subscribers := none }

/-- A document whose first violation in document order is nodeBadPub's
publisher-parameter violation, while the later nodeQtyZero has qty 0. -/
def cfgQty0 : Config := ⟨[⟨"env1", [nodeBadPub, nodeQtyZero]⟩]⟩

/-- C9 counterexample: a config containing a qty 0 node for which the
pipeline raises the publisher-parameter error of an earlier node, not the
quantity error, refuting that the surfaced error is the quantity error. -/
theorem c9_counterexample_other_error_first :
    (∃ env ∈ cfgQty0.environments, ∃ nc ∈ env.nodes, nc.qty = some 0) ∧
      launchPipeline cfgQty0 = .error (.insufficientPubParams "p" "a") ∧
      ∀ nm : String, launchPipeline cfgQty0 ≠ .error (.invalidNodeQty nm) := by
  refine ⟨by decide, rfl, ?_⟩
  intro nm hcontra
  rw [show launchPipeline cfgQty0 = .error (.insufficientPubParams "p" "a") from rfl]
    at hcontra
  simp at hcontra

/-- C9 (amended): for every config in which some node carries qty 0, the
validate-then-expand pipeline rejects before any expansion: validation raises
an error (the quantity error when no earlier violation precedes it in
document order) and no descriptor sequence is produced. -/
theorem c9_qty0_rejected_before_expansion (cfg : Config)
    (h : ∃ env ∈ cfg.environments, ∃ nc ∈ env.nodes, nc.qty = some 0) :
    (∃ e, launchPipeline cfg = .error e) ∧ ∀ ds, launchPipeline cfg ≠ .ok ds := by
  rcases h with ⟨env, henv, nc, hnc, hq⟩
  have hviol : VError.invalidNodeQty nc.name ∈ violations cfg := by
    unfold violations
    rw [List.mem_flatMap]
    refine ⟨env, henv, ?_⟩
    rw [List.mem_flatMap]
    refine ⟨nc, hnc, ?_⟩
    unfold nodeViolations
    rw [hq]
    simp
  cases hl : violations cfg with
  | nil => rw [hl] at hviol; exact absurd hviol (List.not_mem_nil _)
  | cons e t =>
      have hval : validateConfig cfg = .error e := by
        rw [validateConfig_eq, hl]
        rfl
      have hpipe : launchPipeline cfg = .error e := by
        unfold launchPipeline
        rw [hval]
        rfl
      refine ⟨⟨e, hpipe⟩, fun ds hds => ?_⟩
      rw [hpipe] at hds
      exact Except.noConfusion hds

/-- Witness for the amended C9 at the qty 0 document. -/
theorem c9_qty0_rejected_before_expansion_witness :
    (∃ e, launchPipeline cfgQty0 = .error e) ∧ ∀ ds, launchPipeline cfgQty0 ≠ .ok ds :=
  c9_qty0_rejected_before_expansion cfgQty0 (by decide)

/-- A node with two publishers of the same name t, so their expanded topic
names collide; each is otherwise valid. -/
def nodeDupPubs : NodeConfig :=
  { name := "w", root_node := false, terminal_node := false, qty := none,
    publishers := some
      [{ name := "t", qty := none, bandwidth := some 1, msg_size := some 2,
         msg_frequency := none },
       { name := "t", qty := none, bandwidth := some 3, msg_size := some 4,
         msg_frequency := none }],
    subscribers := none }

/-- C10: the topic maps built by process_publishers and process_subscribers
resolve every key to the value of the last assignment that produced it (later
specs silently overwrite earlier ones), and when the suffixed names contain a
duplicate the map holds strictly fewer entries than the sum of the specs'
quantities. -/
theorem c10_duplicate_topic_overwrite (nc : NodeConfig) :
    (∀ k, dictFind (processPublishers nc) k = lastVal (pubAssignments nc) k) ∧
    (∀ k, dictFind (processSubscribers nc) k = lastVal (subAssignments nc) k) ∧
    (¬ ((pubAssignments nc).map Prod.fst).Nodup →
      (processPublishers nc).length < sumPubQty nc) ∧
    (¬ ((subAssignments nc).map Prod.fst).Nodup →
      (processSubscribers nc).length < sumSubQty nc) := by
  refine ⟨fun k => ?_, fun k => ?_, fun hd => ?_, fun hd => ?_⟩
  · rw [processPublishers_eq_fold, dictFind_foldl_insert]
    cases lastVal (pubAssignments nc) k <;> rfl
  · rw [processSubscribers_eq_fold, dictFind_foldl_insert]
    cases lastVal (subAssignments nc) k <;> rfl
  · rw [processPublishers_eq_fold, ← length_pubAssignments]
    simpa using length_foldl_insert_lt_of_dup (pubAssignments nc) [] hd
  · rw [processSubscribers_eq_fold, ← length_subAssignments]
    simpa using length_foldl_insert_lt_of_dup (subAssignments nc) [] hd

/-- Witness for C10 at the duplicate-name publishers node: the key t resolves
to the last assignment and the map is smaller than the quantity sum. -/
theorem c10_duplicate_topic_overwrite_witness :
    dictFind (processPublishers nodeDupPubs) "t" = lastVal (pubAssignments nodeDupPubs) "t" ∧
      (processPublishers nodeDupPubs).length < sumPubQty nodeDupPubs :=
  ⟨(c10_duplicate_topic_overwrite nodeDupPubs).1 "t",
   (c10_duplicate_topic_overwrite nodeDupPubs).2.2.1 (by decide)⟩

end FabricNodes
